import Mathlib

/-
Verification development for the shapeshift repository (src/polytope.py,
src/polyhedra.py, src/operations.py).

Embedding conventions:
* sympy exact numbers (Rational, and the golden-ratio coordinates of the
  dodecahedron/icosahedron) are modelled by exact rational arithmetic:
  type Q below is the rationals (normalized numerator/denominator), and
  type K is the field Q(sqrt 5), represented as pairs a + b*sqrt 5.
  The source stores some coordinates as Python floats; on the inputs
  studied here the equality tests the algorithms perform compare values
  produced by identical arithmetic expressions (so exact arithmetic
  reproduces the comparison behaviour of the source), with one
  exception: find_midsphere_intersection evaluates an edge's projection
  from direction-dependent float expressions, so for the float-PHI
  coordinates of the dodecahedron and icosahedron the exact model does
  not guarantee the source's dedup comparisons, and no theorem below
  asserts a rectify(by_midsphere) result on those two seeds.
* A built polytope (the object graph produced by create_polytope) is
  represented by its index data: vertex coordinates, edges as vertex
  index pairs, faces as lists of edge indices.  Incidence queries
  (superfaces, neighbours) are recomputed from this data in the order
  the builder wires them.  Python set iteration order is modelled as
  first-appearance order of the underlying construction.
* Python exceptions are modelled by the Except monad with PyErr;
  an infinite loop in the source is modelled by PyErr.nonTermination.
-/

namespace Shapeshift

/-- Python failure modes relevant to the embedded code: IndexError,
ValueError, KeyError, TypeError, UnboundLocalError, and divergence of a
while loop. -/
inductive PyErr where
  | indexError
  | valueError
  | keyError
  | typeError
  | unboundLocalError
  | nonTermination
deriving DecidableEq, Repr

/-- Exact rational number, kept normalized (positive denominator, gcd 1)
by the smart constructor qmk.  Models sympy Rational / exact reals. -/
structure Q where
  num : Int
  den : Nat
deriving DecidableEq, Repr

/-- Normalizing constructor for Q.  Division by zero yields 0 (never
reached by the embedded runs). -/
def qmk (n d : Int) : Q :=
  if d = 0 then ⟨0, 1⟩ else
  let n2 : Int := if d < 0 then -n else n
  let dn : Nat := d.natAbs
  let g : Nat := Nat.gcd n2.natAbs dn
  ⟨n2 / (g : Int), dn / g⟩

def qadd (x y : Q) : Q :=
  qmk (x.num * (y.den : Int) + y.num * (x.den : Int)) ((x.den : Int) * (y.den : Int))

def qneg (x : Q) : Q := ⟨-x.num, x.den⟩

def qsub (x y : Q) : Q := qadd x (qneg y)

def qmul (x y : Q) : Q := qmk (x.num * y.num) ((x.den : Int) * (y.den : Int))

def qinv (x : Q) : Q := qmk (x.den : Int) x.num

def qdiv (x y : Q) : Q := qmul x (qinv y)

instance : Add Q := ⟨qadd⟩
instance : Neg Q := ⟨qneg⟩
instance : Sub Q := ⟨qsub⟩
instance : Mul Q := ⟨qmul⟩
instance : Div Q := ⟨qdiv⟩

/-- The field Q(sqrt 5): a + b * sqrt 5 with rational a, b.  Componentwise
equality coincides with value equality because sqrt 5 is irrational.
Used for the dodecahedron/icosahedron coordinates built from the golden
ratio PHI = (1 + sqrt 5)/2. -/
structure K where
  ra : Q
  rb : Q
deriving DecidableEq, Repr

def kadd (x y : K) : K := ⟨x.ra + y.ra, x.rb + y.rb⟩

def kneg (x : K) : K := ⟨-x.ra, -x.rb⟩

def ksub (x y : K) : K := kadd x (kneg y)

def kmul (x y : K) : K :=
  ⟨x.ra * y.ra + qmk 5 1 * (x.rb * y.rb), x.ra * y.rb + x.rb * y.ra⟩

/-- Inverse in Q(sqrt 5): (a + b s)⁻¹ = (a - b s)/(a² - 5 b²). -/
def kinv (x : K) : K :=
  let d : Q := x.ra * x.ra - qmk 5 1 * (x.rb * x.rb)
  ⟨x.ra / d, (-x.rb) / d⟩

def kdiv (x y : K) : K := kmul x (kinv y)

instance : Add K := ⟨kadd⟩
instance : Neg K := ⟨kneg⟩
instance : Sub K := ⟨ksub⟩
instance : Mul K := ⟨kmul⟩
instance : Div K := ⟨kdiv⟩

/-- Embedding of rational constants (the sympy Rational coefficients in
the source) into the coordinate scalar type. -/
class Coef (α : Type) where
  ofQ : Q → α

instance : Coef Q := ⟨id⟩
instance : Coef K := ⟨fun q => ⟨q, ⟨0, 1⟩⟩⟩

/-- The golden ratio PHI = (1 + sqrt 5)/2 as an element of K. -/
def kphi : K := ⟨qmk 1 2, qmk 1 2⟩

/-- A coordinate tuple (x, y, z), as stored on a rank-0 Point element. -/
def Pt (α : Type) : Type := α × α × α

instance [DecidableEq α] : DecidableEq (Pt α) := by
  unfold Pt; infer_instance

/-- First-occurrence deduplication; deterministic stand-in for Python set
union / set iteration order. -/
def dedupAux [DecidableEq β] (seen : List β) : List β → List β
  | [] => []
  | x :: xs => if x ∈ seen then dedupAux seen xs else x :: dedupAux (seen ++ [x]) xs

def dedupFirst [DecidableEq β] (l : List β) : List β := dedupAux [] l

/-- Index of the first occurrence of x, as Python list.index, but total
(Option instead of ValueError). -/
def idxOf [DecidableEq β] (x : β) : List β → Option Nat
  | [] => none
  | y :: ys => if y = x then some 0 else (idxOf x ys).map (fun n => n + 1)

/-! ## The Builder (create_polytope, src/polytope.py lines 609-687) -/

/-- The undirected-edge lookup inside create_with_edges: try the directed
pair, then its reversal. -/
def lookupEdge (es : List (Nat × Nat)) (e : Nat × Nat) : Option Nat :=
  if e ∈ es then idxOf e es
  else if e.swap ∈ es then idxOf e.swap es
  else none

/-- One step of create_with_edges: reuse the index of an existing edge in
either orientation, or allocate a new edge. -/
def addEdge (es : List (Nat × Nat)) (e : Nat × Nat) : List (Nat × Nat) × Nat :=
  match lookupEdge es e with
  | some i => (es, i)
  | none => (es ++ [e], es.length)

/-- create_with_edges: walk each face cycle in consecutive (wrapping)
pairs - zip(face, islice(cycle(face), 1, None)) is zip face (face.rotate 1) -
and convert faces-by-vertex-indices into edges-by-vertex-indices plus
faces-by-edge-indices. -/
def create_with_edges (input_faces : List (List Nat)) :
    List (Nat × Nat) × List (List Nat) :=
  input_faces.foldl
    (fun st face =>
      let inner := (face.zip (face.rotate 1)).foldl
        (fun st2 e =>
          let r := addEdge st2.1 e
          (r.1, st2.2 ++ [r.2]))
        (st.1, ([] : List Nat))
      (inner.1, st.2 ++ [inner.2]))
    (([], []))

/-- A built polyhedron: the index data of the element hierarchy produced
by create_polytope (vertex coordinates; edges as vertex-index pairs;
faces as edge-index lists). -/
structure Built (α : Type) where
  verts : List (Pt α)
  edges : List (Nat × Nat)
  faces : List (List Nat)
deriving DecidableEq

/-- create_polytope (with_edges=False path): derive edges and rewritten
faces with create_with_edges, then wire elements rank by rank.  The only
failure the source can hit is a Python IndexError while resolving a
subface index nfaces[rank-1][subface_idx]; face entries produced by
create_with_edges are in range by construction, so the reachable failure
is an edge endpoint referencing a non-existent vertex. -/
def create_polytope [DecidableEq α] (vs : List (Pt α)) (fs : List (List Nat)) :
    Except PyErr (Built α) :=
  let r := create_with_edges fs
  if r.1.all (fun e => decide (e.1 < vs.length) && decide (e.2 < vs.length))
  then .ok ⟨vs, r.1, r.2⟩
  else .error .indexError

/-! ## Query interface recomputed from the built index data -/

/-- Edge ids of the polyhedron: union over faces of their edge sets
(Polyhedron.edges), in first-appearance order. -/
def edgesOf [DecidableEq α] (b : Built α) : List Nat :=
  dedupFirst (b.faces.foldl (fun acc f => acc ++ f) [])

/-- Endpoints of edge id j (subfaces of a LineSegment). -/
def edgeEnds (b : Built α) (j : Nat) : List Nat :=
  match b.edges[j]? with
  | some e => [e.1, e.2]
  | none => []

/-- Vertex ids of the polyhedron: union over edges of their endpoints
(Polyhedron.vertices), in first-appearance order. -/
def polyVerts [DecidableEq α] (b : Built α) : List Nat :=
  dedupFirst ((edgesOf b).foldl (fun acc j => acc ++ edgeEnds b j) [])

/-- Edge ids incident to vertex v (Point.edges = its superfaces), in the
order the builder wired them (edge creation order). -/
def vertexEdges (b : Built α) (v : Nat) : List Nat :=
  (b.edges.enum.filter (fun p => decide (v = p.2.1) || decide (v = p.2.2))).map
    (fun p => p.1)

/-- Face ids containing edge j (LineSegment superfaces), in face
creation order. -/
def edgeFaces (b : Built α) (j : Nat) : List Nat :=
  (b.faces.enum.filter (fun p => p.2.contains j)).map (fun p => p.1)

/-- Point.neighbours (= siblings): vertices sharing an edge with v, as a
set; modelled in edge order with first-appearance dedup, v removed. -/
def point_neighbours [DecidableEq α] (b : Built α) (v : Nat) : List Nat :=
  (dedupFirst ((vertexEdges b v).foldl (fun acc j => acc ++ edgeEnds b j) [])).erase v

/-- Point.faces: union over the vertex's edges of their superfaces. -/
def point_faces [DecidableEq α] (b : Built α) (v : Nat) : List Nat :=
  dedupFirst ((vertexEdges b v).foldl (fun acc j => acc ++ edgeFaces b j) [])

/-- Coordinates of vertex id v (junk default never reached on valid data). -/
def coordOf [Coef α] (b : Built α) (v : Nat) : Pt α :=
  match b.verts[v]? with
  | some p => p
  | none => (Coef.ofQ ⟨0, 1⟩, Coef.ofQ ⟨0, 1⟩, Coef.ofQ ⟨0, 1⟩)

/-- Number of faces of a built polyhedron. -/
def numFaces (b : Built α) : Nat := b.faces.length

/-- Number of edge elements reachable from faces. -/
def numEdges [DecidableEq α] (b : Built α) : Nat := (edgesOf b).length

/-- Number of vertex elements reachable from edges. -/
def numVerts [DecidableEq α] (b : Built α) : Nat := (polyVerts b).length

/-- Euler characteristic vertices - edges + faces of a built polyhedron. -/
def chi [DecidableEq α] (b : Built α) : Int :=
  (numVerts b : Int) - (numEdges b : Int) + (numFaces b : Int)

/-! ## The five seed solids (src/polyhedra.py lines 405-431) -/

def qi (n : Int) : Q := ⟨n, 1⟩

/-- Extract the built polytope from a successful create_polytope call
(the module-level seeds in polyhedra.py are such results). -/
def getBuilt [DecidableEq α] (x : Except PyErr (Built α)) : Built α :=
  match x with
  | .ok b => b
  | .error _ => ⟨[], [], []⟩

def tetrahedron : Built Q := getBuilt (create_polytope
  [(qi 1, qi 1, qi 1), (qi (-1), qi (-1), qi 1), (qi (-1), qi 1, qi (-1)),
   (qi 1, qi (-1), qi (-1))]
  [[0, 1, 2], [0, 2, 3], [0, 1, 3], [1, 2, 3]])

/-- The cube's literal vertex table (src/polyhedra.py line 410). -/
def cubeVerts : List (Pt Q) :=
  [(qi 1, qi 1, qi 1), (qi 1, qi 1, qi (-1)), (qi 1, qi (-1), qi (-1)),
   (qi 1, qi (-1), qi 1), (qi (-1), qi (-1), qi 1), (qi (-1), qi (-1), qi (-1)),
   (qi (-1), qi 1, qi (-1)), (qi (-1), qi 1, qi 1)]

/-- The cube's literal face table (src/polyhedra.py line 411). -/
def cubeFacesIn : List (List Nat) :=
  [[0, 1, 2, 3], [0, 1, 6, 7], [0, 3, 4, 7], [4, 5, 6, 7], [4, 5, 2, 3],
   [1, 2, 5, 6]]

def cube : Built Q := getBuilt (create_polytope cubeVerts cubeFacesIn)

def octahedron : Built Q := getBuilt (create_polytope
  [(qi 0, qi 1, qi 0), (qi 1, qi 0, qi 0), (qi 0, qi 0, qi 1),
   (qi (-1), qi 0, qi 0), (qi 0, qi 0, qi (-1)), (qi 0, qi (-1), qi 0)]
  [[0, 1, 4], [0, 1, 2], [0, 2, 3], [0, 3, 4], [1, 4, 5], [1, 2, 5],
   [2, 3, 5], [3, 4, 5]])

def k1 : K := Coef.ofQ (qi 1)

def km1 : K := Coef.ofQ (qi (-1))

def k0 : K := Coef.ofQ (qi 0)

/-- 1/PHI, computed exactly in K (the source computes the float 1/PHI). -/
def kphiInv : K := kinv kphi

def dodecahedron : Built K := getBuilt (create_polytope
  [(k1, k1, k1), (k1, k1, km1), (k1, km1, k1), (km1, k1, k1),
   (km1, k1, km1), (km1, km1, k1), (k1, km1, km1), (km1, km1, km1),
   (k0, kphi, kphiInv), (k0, kphi, kneg kphiInv), (k0, kneg kphi, kphiInv),
   (k0, kneg kphi, kneg kphiInv), (kphiInv, k0, kphi), (kphiInv, k0, kneg kphi),
   (kneg kphiInv, k0, kphi), (kneg kphiInv, k0, kneg kphi), (kphi, kphiInv, k0),
   (kphi, kneg kphiInv, k0), (kneg kphi, kphiInv, k0), (kneg kphi, kneg kphiInv, k0)]
  [[14, 12, 2, 10, 5], [12, 0, 16, 17, 2], [2, 17, 6, 11, 10],
   [5, 10, 11, 7, 19], [17, 16, 1, 13, 6], [6, 13, 15, 7, 11],
   [14, 3, 18, 19, 5], [14, 12, 0, 8, 3], [3, 8, 9, 4, 18],
   [19, 18, 4, 15, 7], [8, 0, 16, 1, 9], [9, 1, 13, 15, 4]])

def icosahedron : Built K := getBuilt (create_polytope
  [(k0, k1, kphi), (k0, k1, kneg kphi), (k0, km1, kphi), (k0, km1, kneg kphi),
   (k1, kphi, k0), (k1, kneg kphi, k0), (km1, kphi, k0), (km1, kneg kphi, k0),
   (kphi, k0, k1), (kphi, k0, km1), (kneg kphi, k0, k1), (kneg kphi, k0, km1)]
  [[4, 0, 6], [4, 6, 1], [1, 11, 6], [6, 11, 10], [6, 10, 0],
   [3, 1, 11], [3, 11, 7], [3, 7, 5], [3, 5, 9], [3, 9, 1],
   [10, 11, 7], [1, 4, 9], [2, 8, 5], [5, 8, 9], [2, 5, 7],
   [0, 4, 8], [0, 2, 8], [0, 2, 10], [2, 7, 10], [4, 8, 9]])

/-! ## Polygon.vertices: ordered boundary walk (src/polytope.py lines 506-525) -/

/-- The endpoint of edge e other than last, as edge.vertices.index picks
the first matching slot. -/
def edgeOther (e : Nat × Nat) (last : Nat) : Nat :=
  if e.1 = last then e.2 else e.1

/-- First-occurrence removal with decidable equality (the edges.remove
call on the chosen edge object). -/
def eraseFirst [DecidableEq β] : List β → β → List β
  | [], _ => []
  | x :: xs, y => if x = y then xs else x :: eraseFirst xs y

/-- The while loop of Polygon.vertices: while more than one edge remains,
scan for the first edge containing the last chained vertex, append its
other endpoint and remove the edge.  When no edge matches, the source
loops forever; that divergence is modelled by PyErr.nonTermination, and
the fuel argument (initialised to the number of edges, an upper bound on
the iterations the loop can make while still removing edges) never runs
out on the terminating paths. -/
def walkLoop : Nat → List Nat → List (Nat × Nat) → Except PyErr (List Nat)
  | fuel + 1, acc, rem =>
    if 1 < rem.length then
      match rem.find? (fun e =>
          decide (e.1 = acc.getLastD 0) || decide (e.2 = acc.getLastD 0)) with
      | none => .error .nonTermination
      | some e => walkLoop fuel (acc ++ [edgeOther e (acc.getLastD 0)]) (eraseFirst rem e)
    else .ok acc
  | 0, acc, rem =>
    if 1 < rem.length then .error .nonTermination else .ok acc

/-- ordered_boundary: reconstruct the cyclic vertex order of a 2-cell
from its unordered edge set by the chaining walk of Polygon.vertices.
Popping from an empty edge set raises KeyError in the source. -/
def ordered_boundary (es : List (Nat × Nat)) : Except PyErr (List Nat) :=
  match es with
  | [] => .error .keyError
  | e0 :: rest => walkLoop rest.length [e0.1, e0.2] rest

/-- Polygon.vertices for the face with edge-id list f: the edge objects
form a set (dedup), then the chaining walk runs on their endpoint pairs. -/
def polygon_vertices [DecidableEq α] (b : Built α) (f : List Nat) :
    Except PyErr (List Nat) :=
  ordered_boundary ((dedupFirst f).filterMap (fun j => b.edges[j]?))

/-! ## Shared operator subroutines (src/polytope.py lines 215-259) -/

/-- Polyhedron.__add_to_list: reuse the index of a point already in the
pool, else append it; the chosen index is appended to the face. -/
def add_to_list [DecidableEq α] (p : Pt α) (pool : List (Pt α)) (nf : List Nat) :
    List (Pt α) × List Nat :=
  match idxOf p pool with
  | some i => (pool, nf ++ [i])
  | none => (pool ++ [p], nf ++ [pool.length])

/-- Polyhedron.diminish: build the vertex-figure face around vertex v.
For each neighbour, apply func to (v, neighbour) coordinates; join two
new points by an edge once per original face shared by their neighbour
vertices (the unordered_face pairs carry the neighbour, whose faces the
source recomputes at each use; here each neighbour's face list is
computed once, with identical value); order the points by the chaining
walk; finally translate the points to indices in the vertex pool
(ValueError when absent, as list.index).  An empty candidate edge list
hits edges[0] (IndexError). -/
def diminish [DecidableEq α] [Coef α] (func : Pt α → Pt α → Pt α) (b : Built α)
    (v : Nat) (pool : List (Pt α)) : Except PyErr (List Nat) :=
  let uf : List (Pt α × List Nat) :=
    (point_neighbours b v).map
      (fun n => (func (coordOf b v) (coordOf b n), point_faces b n))
  let cands : List (Pt α × Pt α) :=
    uf.foldl (fun acc p1 =>
      uf.foldl (fun acc2 p2 =>
        if p1.1 ≠ p2.1 then
          acc2 ++ (p1.2.filter
            (fun i => decide (i ∈ p2.2))).map (fun _ => (p1.1, p2.1))
        else acc2) acc) []
  match cands with
  | [] => .error .indexError
  | e0 :: _ =>
    let fv : List (Pt α) :=
      (List.range cands.length).foldl (fun acc _ =>
        match cands.find? (fun e =>
            decide (e.1 = acc.getLastD e0.1) && ! acc.contains e.2) with
        | some e => acc ++ [e.2]
        | none => acc) [e0.1]
    fv.foldlM (fun nf p =>
      match idxOf p pool with
      | some i => .ok (nf ++ [i])
      | none => .error .valueError) ([] : List Nat)

/-! ## Pointwise arithmetic helpers for the operators -/

def padd [Add α] (u v : Pt α) : Pt α :=
  (u.1 + v.1, u.2.1 + v.2.1, u.2.2 + v.2.2)

def psub [Sub α] (u v : Pt α) : Pt α :=
  (u.1 - v.1, u.2.1 - v.2.1, u.2.2 - v.2.2)

def pscale [Mul α] (t : α) (v : Pt α) : Pt α :=
  (t * v.1, t * v.2.1, t * v.2.2)

def pdot [Add α] [Mul α] (u v : Pt α) : α :=
  u.1 * v.1 + u.2.1 * v.2.1 + u.2.2 * v.2.2

def pcross [Sub α] [Mul α] (u v : Pt α) : Pt α :=
  (u.2.1 * v.2.2 - u.2.2 * v.2.1,
   u.2.2 * v.1 - u.1 * v.2.2,
   u.1 * v.2.1 - u.2.1 * v.1)

/-! ## is_canonical (src/polytope.py lines 199-211) -/

/-- Squared distance from the origin to the line through p and q,
computed exactly: |p x q|^2 / |q - p|^2. -/
def sqDistLine [Add α] [Sub α] [Mul α] [Div α] (p q : Pt α) : α :=
  pdot (pcross p q) (pcross p q) / pdot (psub q p) (psub q p)

def edgeSqDist [DecidableEq α] [Add α] [Sub α] [Mul α] [Div α] [Coef α]
    (b : Built α) (j : Nat) : α :=
  match b.edges[j]? with
  | some e => sqDistLine (coordOf b e.1) (coordOf b e.2)
  | none => Coef.ofQ ⟨0, 1⟩

/-- Polyhedron.is_canonical: every edge line is equidistant from the
origin.  The source compares float distances with math.isclose; the
embedding compares the exact squared distances for equality. -/
def is_canonical [DecidableEq α] [Add α] [Sub α] [Mul α] [Div α] [Coef α]
    (b : Built α) : Bool :=
  match edgesOf b with
  | [] => true
  | j0 :: rest => rest.all (fun j => decide (edgeSqDist b j = edgeSqDist b j0))

/-! ## truncate (src/polytope.py lines 261-294) -/

/-- find_third nested in truncate: the point at one third of the way
from vertex1 towards vertex2 (coefficients 2/3 and 1/3). -/
def find_third [Add α] [Mul α] [Coef α] (v1 v2 : Pt α) : Pt α :=
  (v1.1 * Coef.ofQ (qmk 2 3) + v2.1 * Coef.ofQ (qmk 1 3),
   v1.2.1 * Coef.ofQ (qmk 2 3) + v2.2.1 * Coef.ofQ (qmk 1 3),
   v1.2.2 * Coef.ofQ (qmk 2 3) + v2.2.2 * Coef.ofQ (qmk 1 3))

/-- The body shared by polytope.py truncate (which finishes with
create_polytope) and operations.py Operations.truncate (which does not):
produce the new vertex pool and the new faces. -/
def truncate_raw [DecidableEq α] [Add α] [Mul α] [Coef α] (b : Built α) :
    Except PyErr (List (Pt α) × List (List Nat)) := do
  let st ← b.faces.foldlM (fun (st : List (Pt α) × List (List Nat)) f => do
    let vs ← polygon_vertices b f
    let n := vs.length
    let inner := (List.range n).foldl (fun (st2 : List (Pt α) × List Nat) x =>
      let c1 := coordOf b (vs.getD ((x + n - 1) % n) 0)
      let c2 := coordOf b (vs.getD x 0)
      let r1 := add_to_list (find_third c1 c2) st2.1 st2.2
      add_to_list (find_third c2 c1) r1.1 r1.2) (st.1, ([] : List Nat))
    pure (inner.1, st.2 ++ [inner.2])) (([], []))
  let faces2 ← (polyVerts b).foldlM (fun acc v => do
    let nf ← diminish find_third b v st.1
    pure (acc ++ [nf])) st.2
  pure (st.1, faces2)

/-- Polyhedron.truncate: cleave each vertex, marking the 1/3 and 2/3
points of each edge as new vertices. -/
def truncate [DecidableEq α] [Add α] [Mul α] [Coef α] (b : Built α) :
    Except PyErr (Built α) := do
  let r ← truncate_raw b
  create_polytope r.1 r.2

/-- Operations.truncate (src/operations.py lines 64-98): the same body,
but the result is Polyhedron(new_vertices, new_faces) built directly via
the Polytope constructor, with no builder wiring at all. -/
def ops_truncate [DecidableEq α] [Add α] [Mul α] [Coef α] (b : Built α) :
    Except PyErr (List (Pt α) × List (List Nat)) :=
  truncate_raw b

/-! ## rectify (src/polytope.py lines 296-354) -/

def byMidsphere : String := "by_midsphere"

def byMidpoint : String := "by_midpoint"

def msgRectifying : String := "Rectifying"

def msgNotCanonical : String := "Polyhedron is not canonical; must have a midsphere to rectify."

def msgInvalidOption : String := "Not a valid option for parameter alt_method."

/-- find_midsphere_intersection: the point of the edge line closest to
the origin (sympy Line3D.projection of the origin).  The source computes
this through float arithmetic whose rounding depends on the endpoint
order; the exact model is only relied on for seeds whose projections are
exactly representable (tetrahedron, cube, octahedron), not for the
float-PHI dodecahedron or icosahedron. -/
def find_midsphere_intersection [Add α] [Sub α] [Mul α] [Div α] [Coef α]
    (v1 v2 : Pt α) : Pt α :=
  let d := psub v2 v1
  let t := (Coef.ofQ ⟨0, 1⟩ - pdot v1 d) / pdot d d
  padd v1 (pscale t d)

/-- find_midpoint nested in rectify. -/
def find_midpoint [Add α] [Mul α] [Coef α] (v1 v2 : Pt α) : Pt α :=
  ((v1.1 + v2.1) * Coef.ofQ (qmk 1 2),
   (v1.2.1 + v2.2.1) * Coef.ofQ (qmk 1 2),
   (v1.2.2 + v2.2.2) * Coef.ofQ (qmk 1 2))

/-- The loop body of rectify after method dispatch.  The vertex placer
is Option-valued: when the method string matched neither branch the
local create_new_vertices is never assigned, and its first use raises
UnboundLocalError. -/
def rectifyBody [DecidableEq α] [Add α] [Mul α] [Coef α]
    (placer : Option (Pt α → Pt α → Pt α)) (b : Built α) :
    Except PyErr (Built α) := do
  let st ← b.faces.foldlM (fun (st : List (Pt α) × List (List Nat)) f => do
    let vs ← polygon_vertices b f
    let inner ← (vs.zip (vs.rotate 1)).foldlM
      (fun (st2 : List (Pt α) × List Nat) pr => do
        let fn ← match placer with
          | some fn => pure fn
          | none => Except.error PyErr.unboundLocalError
        pure (add_to_list (fn (coordOf b pr.1) (coordOf b pr.2)) st2.1 st2.2))
      (st.1, ([] : List Nat))
    pure (inner.1, st.2 ++ [inner.2])) (([], []))
  let faces2 ← (polyVerts b).foldlM (fun acc v => do
    let fn ← match placer with
      | some fn => pure fn
      | none => Except.error PyErr.unboundLocalError
    let nf ← diminish fn b v st.1
    pure (acc ++ [nf])) st.2
  create_polytope st.1 faces2

/-- Polyhedron.rectify: by_midsphere (the default) requires is_canonical
and otherwise prints a message and returns the input unchanged;
by_midpoint uses edge midpoints; any other method prints the invalid
option message and leaves the vertex placer unassigned.  The List String
component collects the printed messages. -/
def rectify [DecidableEq α] [Add α] [Sub α] [Mul α] [Div α] [Coef α]
    (b : Built α) (method : String) : List String × Except PyErr (Built α) :=
  if method = byMidsphere then
    if ! is_canonical b then
      ([msgRectifying, msgNotCanonical], .ok b)
    else ([msgRectifying], rectifyBody (some find_midsphere_intersection) b)
  else if method = byMidpoint then
    ([msgRectifying], rectifyBody (some find_midpoint) b)
  else ([msgRectifying, msgInvalidOption], rectifyBody none b)

/-! ## facet (src/polytope.py lines 356-371) -/

def keep_only_neighbour (v1 v2 : Pt α) : Pt α := v2

/-- Polyhedron.facet: keep all vertices, one new face per vertex from
its neighbour cycle via diminish. -/
def facet [DecidableEq α] [Coef α] (b : Built α) : Except PyErr (Built α) := do
  let pool := (polyVerts b).map (coordOf b)
  let faces2 ← (polyVerts b).foldlM (fun acc v => do
    let nf ← diminish keep_only_neighbour b v pool
    pure (acc ++ [nf])) ([] : List (List Nat))
  create_polytope pool faces2

/-! ## reciprocate (src/polytope.py lines 373-393) -/

/-- find_centroid nested in reciprocate: the componentwise mean of the
coordinate list. -/
def find_centroid [Add α] [Div α] [Coef α] (ps : List (Pt α)) : Pt α :=
  let s := ps.foldl padd (Coef.ofQ ⟨0, 1⟩, Coef.ofQ ⟨0, 1⟩, Coef.ofQ ⟨0, 1⟩)
  (s.1 / Coef.ofQ (qi ps.length), s.2.1 / Coef.ofQ (qi ps.length),
   s.2.2 / Coef.ofQ (qi ps.length))

/-- Polyhedron.reciprocate: one new vertex per original face (its
centroid), one new face per original vertex from the centroids of its
incident faces, in their stored order. -/
def reciprocate [DecidableEq α] [Add α] [Div α] [Coef α] (b : Built α) :
    Except PyErr (Built α) := do
  let st ← (polyVerts b).foldlM (fun (st : List (Pt α) × List (List Nat)) v => do
    let inner ← (point_faces b v).foldlM
      (fun (st2 : List (Pt α) × List Nat) i => do
        let f := match b.faces[i]? with
          | some f => f
          | none => []
        let vs ← polygon_vertices b f
        let c := find_centroid (vs.map (coordOf b))
        pure (add_to_list c st2.1 st2.2)) (st.1, ([] : List Nat))
    pure (inner.1, st.2 ++ [inner.2])) (([], []))
  create_polytope st.1 st.2

/-! ## Unfinished operators (src/polytope.py lines 400-406, 446-484) -/

def msgUnderDev : String := "Under development"

def cap (b : Built α) : List String × Built α := ([msgUnderDev], b)

def bridge (b : Built α) : List String × Built α := ([msgUnderDev], b)

def decompose (b : Built α) : List String × Built α := ([msgUnderDev], b)

def uncouple (b : Built α) : List String × Built α := ([msgUnderDev], b)

/-- Polytope.neighbours for a face: faces sharing an edge with it; the
set.remove(self) raises KeyError when the face has no edges. -/
def face_neighbours [DecidableEq α] (b : Built α) (i : Nat) :
    Except PyErr (List Nat) :=
  let f := match b.faces[i]? with
    | some f => f
    | none => []
  let ns := dedupFirst (f.foldl (fun acc j => acc ++ edgeFaces b j) [])
  if i ∈ ns then .ok (ns.erase i) else .error .keyError

/-- Polyhedron.greaten: for every face it iterates over all 2-element
combinations of its neighbours and calls the nested one-parameter
function intersection(face1) with two arguments, raising TypeError on
the first combination; with no face having two neighbours the loops do
nothing and the input is returned. -/
def greaten [DecidableEq α] (b : Built α) : List String × Except PyErr (Built α) :=
  ([msgUnderDev],
    (do
      let _ ← (List.range b.faces.length).foldlM (fun (_ : Unit) i => do
        let ns ← face_neighbours b i
        if 2 ≤ ns.length then Except.error PyErr.typeError else pure ()) ()
      pure b))

/-! ## Fraction-parameterized truncation, modelled from the spec -/

/-- Modelled from the spec (section 4.3 operator table): the cut point of
the parameterized truncation, at fraction f: each edge keeps the middle
portion, cutting a fraction f/2 off each end, so the point placed from
v1 towards v2 is v1*(1 - f/2) + v2*(f/2); f = 2/3 reproduces find_third
and f = 1 gives the midpoint. -/
def find_fraction [Add α] [Mul α] [Coef α] (f : Q) (v1 v2 : Pt α) : Pt α :=
  (v1.1 * Coef.ofQ (qsub (qi 1) (qdiv f (qi 2))) + v2.1 * Coef.ofQ (qdiv f (qi 2)),
   v1.2.1 * Coef.ofQ (qsub (qi 1) (qdiv f (qi 2))) + v2.2.1 * Coef.ofQ (qdiv f (qi 2)),
   v1.2.2 * Coef.ofQ (qsub (qi 1) (qdiv f (qi 2))) + v2.2.2 * Coef.ofQ (qdiv f (qi 2)))

/-- Modelled from the spec (section 4.3): truncate with a fraction
parameter; per face vertex the cut point is placed twice (once per edge
endpoint) except at fraction 1 where the two merge into one midpoint. -/
def spec_truncate_fraction [DecidableEq α] [Add α] [Mul α] [Coef α] (f : Q)
    (b : Built α) : Except PyErr (Built α) := do
  let st ← b.faces.foldlM (fun (st : List (Pt α) × List (List Nat)) fc => do
    let vs ← polygon_vertices b fc
    let n := vs.length
    let inner := (List.range n).foldl (fun (st2 : List (Pt α) × List Nat) x =>
      let c1 := coordOf b (vs.getD ((x + n - 1) % n) 0)
      let c2 := coordOf b (vs.getD x 0)
      if f = qi 1 then
        add_to_list (find_fraction f c1 c2) st2.1 st2.2
      else
        let r1 := add_to_list (find_fraction f c1 c2) st2.1 st2.2
        add_to_list (find_fraction f c2 c1) r1.1 r1.2) (st.1, ([] : List Nat))
    pure (inner.1, st.2 ++ [inner.2])) (([], []))
  let faces2 ← (polyVerts b).foldlM (fun acc v => do
    let nf ← diminish (find_fraction f) b v st.1
    pure (acc ++ [nf])) st.2
  create_polytope st.1 faces2

instance {ε β : Type} [DecidableEq ε] [DecidableEq β] : DecidableEq (Except ε β) :=
  fun a b =>
    match a, b with
    | .ok x, .ok y => if h : x = y then .isTrue (by rw [h]) else .isFalse (by
        intro hc; cases hc; exact h rfl)
    | .error x, .error y => if h : x = y then .isTrue (by rw [h]) else .isFalse (by
        intro hc; cases hc; exact h rfl)
    | .ok _, .error _ => .isFalse (by intro hc; cases hc)
    | .error _, .ok _ => .isFalse (by intro hc; cases hc)

/-! ## The wired element graph and the two-way incidence invariant

create_polytope wires elements imperatively: each Element holds a
subfaces list, and as each element is created it is appended to the
superfaces list of every one of its subfaces (once per subface
assignment).  The graph below replays exactly that wiring on node
records indexed in creation order (vertices, then edges, then faces,
then the outer polytope). -/

structure Node where
  subs : List Nat
  sups : List Nat
deriving DecidableEq

def modifyAt {β : Type} : List β → Nat → (β → β) → List β
  | [], _, _ => []
  | x :: xs, 0, f => f x :: xs
  | x :: xs, n + 1, f => x :: modifyAt xs n f

/-- Append element id k to the superfaces list of node s
(subface.superfaces.append(cur_face)). -/
def pushSup (g : List Node) (s k : Nat) : List Node :=
  modifyAt g s (fun nd => { nd with sups := nd.sups ++ [k] })

/-- Create one element with the given subface ids, then push it onto
each subface's superfaces list, in subface order. -/
def addElem (g : List Node) (subs : List Nat) : List Node :=
  subs.foldl (fun acc s => pushSup acc s g.length) (g ++ [⟨subs, []⟩])

def addRank (g : List Node) (elems : List (List Nat)) : List Node :=
  elems.foldl addElem g

/-- Replay the builder's wiring for a built polyhedron: rank-0 vertices
(no subfaces), rank-1 edges, rank-2 faces, and the outer polytope that
every face receives as a final superface. -/
def wireAll [DecidableEq α] (b : Built α) : List Node :=
  let g0 := addRank [] (b.verts.map (fun _ => []))
  let g1 := addRank g0 (b.edges.map (fun e => [e.1, e.2]))
  let g2 := addRank g1 (b.faces.map (fun f => f.map (fun j => j + b.verts.length)))
  addElem g2 ((List.range b.faces.length).map
    (fun i => i + b.verts.length + b.edges.length))

/-- Total node accessor (nodes out of range read as empty). -/
def nodeAt (g : List Node) (i : Nat) : Node :=
  (g[i]?).getD ⟨[], []⟩

/-- The two-way incidence invariant: element A occurs among B's subfaces
exactly as often as B occurs among A's superfaces. -/
def TwoWay (g : List Node) : Prop :=
  ∀ i, i < g.length → ∀ j, j < g.length →
    List.count j (nodeAt g i).subs = List.count i (nodeAt g j).sups

instance (g : List Node) : Decidable (TwoWay g) := by
  unfold TwoWay; infer_instance

/-- All subface and superface references stay inside the graph. -/
def Bounded (g : List Node) : Prop :=
  ∀ i, i < g.length →
    (∀ s ∈ (nodeAt g i).subs, s < g.length) ∧
    (∀ s ∈ (nodeAt g i).sups, s < g.length)

/-- The object returned by the Operations classmethods in operations.py:
Polyhedron(new_vertices, new_faces) calls the Polytope constructor with
subfaces := the raw coordinate tuples and superfaces := a weakref proxy
of the raw face index lists.  As nodes: one leaf node per coordinate
tuple (a tuple has no superfaces attribute, modelled as an empty list)
and the polyhedron node whose subfaces are the tuples; the proxied face
lists are not elements and contribute no links. -/
def opsResultGraph (r : List (Pt α) × List (List Nat)) : List Node :=
  (r.1.map (fun _ => (⟨[], []⟩ : Node))) ++ [⟨List.range r.1.length, []⟩]

def getRaw [DecidableEq α] (x : Except PyErr (List (Pt α) × List (List Nat))) :
    List (Pt α) × List (List Nat) :=
  match x with
  | .ok r => r
  | .error _ => ([], [])

/-! ## Notions used to state the claims -/

/-- Unordered-pair normal form of a directed edge. -/
def canon (e : Nat × Nat) : Nat × Nat :=
  if e.1 ≤ e.2 then e else e.swap

/-- No two entries of the list are equal as unordered pairs. -/
def UNodup (es : List (Nat × Nat)) : Prop :=
  es.Pairwise (fun a b => canon a ≠ canon b)

/-- The cyclically consecutive pairs of a vertex list. -/
def cycPairs (l : List Nat) : List (Nat × Nat) :=
  l.zip (l.rotate 1)

/-- The edge list es is the unordered edge set of a single simple cycle:
some duplicate-free vertex list vs of length at least 3 has exactly
those consecutive pairs, up to orientation and order. -/
def SimpleCycle (es : List (Nat × Nat)) (vs : List Nat) : Prop :=
  3 ≤ vs.length ∧ vs.Nodup ∧ (es.map canon).Perm ((cycPairs vs).map canon)

/-- Consecutive pairs of a path list, closed back to w at the end. -/
def wrapPairs (w : Nat) : List Nat → List (Nat × Nat)
  | [] => []
  | [x] => [(x, w)]
  | x :: y :: t => (x, y) :: wrapPairs w (y :: t)

/-- Each face of a built polyhedron as the coordinate cycle of its
ordered boundary (empty on a walk failure). -/
def faceCoords [DecidableEq α] [Coef α] (b : Built α) : List (List (Pt α)) :=
  b.faces.map (fun f =>
    match polygon_vertices b f with
    | .ok vs => vs.map (coordOf b)
    | .error _ => [])

/-- Whether l1 is a rotation of l2. -/
def rotEq [DecidableEq β] (l1 l2 : List β) : Bool :=
  (List.range l2.length).any (fun n => decide (l2.rotate n = l1))

/-- A tetrahedron with one vertex pulled outward: its edge lines are not
equidistant from the origin, so is_canonical is false. -/
def squashedTetra : Built Q := getBuilt (create_polytope
  [(qi 2, qi 2, qi 2), (qi (-1), qi (-1), qi 1), (qi (-1), qi 1, qi (-1)),
   (qi 1, qi (-1), qi (-1))]
  [[0, 1, 2], [0, 2, 3], [0, 1, 3], [1, 2, 3]])

/-- Decidability of the simple-cycle predicate, for concrete checks. -/
instance instDecSimpleCycle (es : List (Nat × Nat)) (vs : List Nat) :
    Decidable (SimpleCycle es vs) :=
  inferInstanceAs (Decidable (3 ≤ vs.length ∧ vs.Nodup ∧
    (es.map canon).Perm ((cycPairs vs).map canon)))

/-! ## Theorems -/

set_option maxRecDepth 1000000

set_option maxHeartbeats 16000000

/-- C2: truncating the cube (default thirds) yields 24 vertices, 36
edges and 14 faces: the 6 original quads become octagons and each of
the 8 original vertices contributes a triangular vertex figure. -/
theorem C2_truncate_cube :
    (truncate cube).map (fun b => (numVerts b, numEdges b, numFaces b)) =
      .ok (24, 36, 14) ∧
    (truncate cube).map (fun b => b.faces.map List.length) =
      .ok [8, 8, 8, 8, 8, 8, 3, 3, 3, 3, 3, 3, 3, 3] := by
  decide

/-- C1 counterexample: facet applied to the cube seed yields vertex -
edge + face = 4, not 2 (the result is the compound of two tetrahedra),
refuting the claim that every one of truncate, rectify, facet,
reciprocate preserves Euler's formula on every seed. -/
theorem C1_counterexample :
    (facet cube).map chi = .ok 4 ∧ (facet cube).map chi ≠ .ok 2 := by
  decide

/-- C4 (amended form of the always-studied branch): whenever
is_canonical is false, rectify with the default by_midsphere method
prints the precondition message and returns the input polytope itself,
with no computation of a different shape and no substituted method. -/
theorem C4_rectify_noncanonical {α : Type} [DecidableEq α] [Add α] [Sub α]
    [Mul α] [Div α] [Coef α] (b : Built α) (h : is_canonical b = false) :
    rectify b byMidsphere = ([msgRectifying, msgNotCanonical], .ok b) := by
  unfold rectify
  rw [if_pos rfl, h]
  rfl

/-- Witness for C4 at a concrete non-canonical polyhedron. -/
theorem C4_witness :
    is_canonical squashedTetra = false ∧
    rectify squashedTetra byMidsphere =
      ([msgRectifying, msgNotCanonical], .ok squashedTetra) :=
  ⟨by decide, C4_rectify_noncanonical squashedTetra (by decide)⟩

/-- C6 counterexample: a face with a vertex cycle of length 2 is not
rejected - the build succeeds and returns a polytope with one face, so
no DegenerateFaceError exists. -/
theorem C6_counterexample :
    (create_polytope [(qi 0, qi 0, qi 0), (qi 1, qi 1, qi 1)] [[0, 1]]).map
      (fun b => (numVerts b, numEdges b, numFaces b)) = .ok (2, 1, 1) := by
  decide

/-- C6 amended: the Builder performs no eager validation; the only
failure it can produce is the untyped IndexError hit while wiring an
edge whose endpoint references a non-existent vertex, as on the
concrete out-of-range input below. -/
theorem C6_amended {α : Type} [DecidableEq α] :
    (∀ (vs : List (Pt α)) (fs : List (List Nat)),
        (create_polytope vs fs).isOk = true ∨
        create_polytope vs fs = .error PyErr.indexError) ∧
    (create_polytope [(qi 0, qi 0, qi 0)] [[0, 1, 2]] : Except PyErr (Built Q)) =
      .error PyErr.indexError := by
  constructor
  · intro vs fs
    unfold create_polytope
    by_cases h : (create_with_edges fs).1.all
        (fun e => decide (e.1 < vs.length) && decide (e.2 < vs.length))
    · left; rw [if_pos h]; rfl
    · right; rw [if_neg h]
  · decide

/-- C9 counterexample: greaten raises (modelled TypeError: the nested
one-argument intersection function is called with two arguments) on the
cube, refuting the claim that all five unfinished operators never raise. -/
theorem C9_counterexample :
    (greaten cube).2 = .error PyErr.typeError := by
  decide

/-- C9 amended: cap, bridge, decompose and uncouple return the input
unchanged with the diagnostic, and never fail; greaten also prints the
diagnostic but raises a TypeError as soon as some face has at least two
neighbours, as on the cube. -/
theorem C9_amended {α : Type} [DecidableEq α] (b : Built α) :
    cap b = ([msgUnderDev], b) ∧ bridge b = ([msgUnderDev], b) ∧
    decompose b = ([msgUnderDev], b) ∧ uncouple b = ([msgUnderDev], b) ∧
    (greaten b).1 = [msgUnderDev] ∧
    (greaten cube).2 = .error PyErr.typeError :=
  ⟨rfl, rfl, rfl, rfl, rfl, by decide⟩

/-- C3 counterexample: the object Operations.truncate (operations.py)
returns is Polyhedron(new_vertices, new_faces) with no builder wiring:
its subfaces are raw coordinate tuples carrying no superfaces
back-links, so the two-way incidence invariant fails on it. -/
theorem C3_counterexample :
    ¬ TwoWay (opsResultGraph (getRaw (ops_truncate cube))) := by
  decide

/-- C7 counterexample: rectify is not the code's truncate at any
fraction - the code's truncate has no fraction parameter and always
cuts at thirds, so on the cube truncate yields 24 vertices while
rectify(by_midpoint) yields 12, and the results differ. -/
theorem C7_counterexample :
    (truncate cube).map numVerts = .ok 24 ∧
    ((rectify cube byMidpoint).2).map numVerts = .ok 12 ∧
    (rectify cube byMidpoint).2 ≠ truncate cube := by
  decide

/-- C7 amended: the code's truncate coincides with the spec-modelled
fraction-parameterized truncation at the default fraction 2/3, and at
fraction 1 (the two per-edge points merging into one midpoint) the
result agrees with rectify(by_midpoint) on the cube up to renumbering
of the merged vertex pool: equal vertex multisets, equally many faces,
and each face the same coordinate cycle up to rotation. -/
theorem C7_amended :
    spec_truncate_fraction (qmk 2 3) cube = truncate cube ∧
    (spec_truncate_fraction (qi 1) cube).isOk = true ∧
    ((rectify cube byMidpoint).2).isOk = true ∧
    (getBuilt (spec_truncate_fraction (qi 1) cube)).verts.Perm
      (getBuilt ((rectify cube byMidpoint).2)).verts ∧
    numFaces (getBuilt (spec_truncate_fraction (qi 1) cube)) =
      numFaces (getBuilt ((rectify cube byMidpoint).2)) ∧
    ((faceCoords (getBuilt (spec_truncate_fraction (qi 1) cube))).zip
      (faceCoords (getBuilt ((rectify cube byMidpoint).2)))).all
      (fun pr => rotEq pr.1 pr.2) = true := by
  decide

theorem chi_truncate_tetra : (truncate tetrahedron).map chi = .ok 2 := by
  decide

theorem chi_truncate_cube : (truncate cube).map chi = .ok 2 := by
  decide

theorem chi_truncate_octa : (truncate octahedron).map chi = .ok 2 := by
  decide

theorem chi_truncate_dodeca : (truncate dodecahedron).map chi = .ok 2 := by
  decide

theorem chi_truncate_icosa : (truncate icosahedron).map chi = .ok 2 := by
  decide

theorem chi_rectify_tetra : ((rectify tetrahedron byMidsphere).2).map chi = .ok 2 := by
  decide

theorem chi_rectify_cube : ((rectify cube byMidsphere).2).map chi = .ok 2 := by
  decide

theorem chi_rectify_octa : ((rectify octahedron byMidsphere).2).map chi = .ok 2 := by
  decide

theorem chi_reciprocate_tetra : (reciprocate tetrahedron).map chi = .ok 2 := by
  decide

theorem chi_reciprocate_cube : (reciprocate cube).map chi = .ok 2 := by
  decide

theorem chi_reciprocate_dodeca : (reciprocate dodecahedron).map chi = .ok 2 := by
  decide

theorem chi_reciprocate_octa : (reciprocate octahedron).map chi = .ok (-7) := by
  decide

theorem chi_reciprocate_icosa : (reciprocate icosahedron).map chi = .ok (-16) := by
  decide

theorem chi_facet_tetra : (facet tetrahedron).map chi = .ok 2 := by
  decide

theorem chi_facet_octa : (facet octahedron).map chi = .ok 0 := by
  decide

/-- C1 amended: Euler's formula vertex - edge + face = 2 holds for
truncate on all five seeds, for rectify (default by_midsphere) on the
tetrahedron, cube and octahedron (the seeds whose edge projections are
exactly representable, so the model's dedup comparisons match the
source's float comparisons; the float-PHI dodecahedron and icosahedron
are not asserted), and for reciprocate on the tetrahedron, cube and
dodecahedron (whose vertex figures are triangles, which no set order
can disturb); it fails for facet on the octahedron (0; the cube, 4, is
the counterexample) and, under the modelled first-appearance set order,
for reciprocate on the octahedron (-7) and icosahedron (-16), whose
degree-4 and degree-5 vertex figures are assembled from centroids in
set order rather than cyclic order, exhibiting iteration orders on
which the source violates Euler there. -/
theorem C1_amended :
    (truncate tetrahedron).map chi = .ok 2 ∧
    (truncate cube).map chi = .ok 2 ∧
    (truncate octahedron).map chi = .ok 2 ∧
    (truncate dodecahedron).map chi = .ok 2 ∧
    (truncate icosahedron).map chi = .ok 2 ∧
    ((rectify tetrahedron byMidsphere).2).map chi = .ok 2 ∧
    ((rectify cube byMidsphere).2).map chi = .ok 2 ∧
    ((rectify octahedron byMidsphere).2).map chi = .ok 2 ∧
    (reciprocate tetrahedron).map chi = .ok 2 ∧
    (reciprocate cube).map chi = .ok 2 ∧
    (reciprocate dodecahedron).map chi = .ok 2 ∧
    (reciprocate octahedron).map chi = .ok (-7) ∧
    (reciprocate icosahedron).map chi = .ok (-16) ∧
    (facet tetrahedron).map chi = .ok 2 ∧
    (facet octahedron).map chi = .ok 0 :=
  ⟨chi_truncate_tetra, chi_truncate_cube, chi_truncate_octa, chi_truncate_dodeca,
   chi_truncate_icosa,
   chi_rectify_tetra, chi_rectify_cube, chi_rectify_octa,
   chi_reciprocate_tetra, chi_reciprocate_cube, chi_reciprocate_dodeca,
   chi_reciprocate_octa, chi_reciprocate_icosa,
   chi_facet_tetra, chi_facet_octa⟩

theorem walkLoop_length_le : ∀ (fuel : Nat) (acc : List Nat)
    (rem : List (Nat × Nat)) (out : List Nat),
    walkLoop fuel acc rem = .ok out → acc.length ≤ out.length := by
  intro fuel
  induction fuel with
  | zero =>
    intro acc rem out h
    simp only [walkLoop] at h
    split at h
    · exact absurd h (by simp)
    · cases h; exact Nat.le_refl _
  | succ n ih =>
    intro acc rem out h
    simp only [walkLoop] at h
    split at h
    · cases hfind : rem.find? (fun e =>
          decide (e.1 = acc.getLastD 0) || decide (e.2 = acc.getLastD 0)) with
      | none => rw [hfind] at h; exact absurd h (by simp)
      | some e =>
        rw [hfind] at h
        have := ih _ _ _ h
        simp at this
        omega
    · cases h; exact Nat.le_refl _

theorem ordered_boundary_length (es : List (Nat × Nat)) (out : List Nat)
    (h : ordered_boundary es = .ok out) : 2 ≤ out.length := by
  cases es with
  | nil => exact absurd h (by simp [ordered_boundary])
  | cons e0 rest =>
    have := walkLoop_length_le rest.length [e0.1, e0.2] rest out h
    simpa using this

theorem C10_invalid_method {α : Type} [DecidableEq α] [Add α] [Sub α]
    [Mul α] [Div α] [Coef α] (b : Built α) (method : String) (f0 : List Nat)
    (rest : List (List Nat)) (vs : List Nat)
    (hm1 : method ≠ byMidsphere) (hm2 : method ≠ byMidpoint)
    (hf : b.faces = f0 :: rest) (hw : polygon_vertices b f0 = .ok vs) :
    rectify b method =
      ([msgRectifying, msgInvalidOption], .error PyErr.unboundLocalError) := by
  have h2 : 2 ≤ vs.length := ordered_boundary_length _ _ hw
  unfold rectify
  rw [if_neg hm1, if_neg hm2]
  match vs, h2 with
  | x :: y :: t, _ =>
    simp only [rectifyBody, hf, List.foldlM_cons, hw]
    have hrot : (x :: y :: t).rotate 1 = (y :: t) ++ [x] := by
      rw [List.rotate_cons_succ, List.rotate_zero]
    simp [hrot, Bind.bind, Except.bind]

theorem C10_witness :
    rectify cube ("bogus") =
      ([msgRectifying, msgInvalidOption], .error PyErr.unboundLocalError) :=
  C10_invalid_method cube ("bogus") [0, 1, 2, 3]
    [[0, 4, 5, 6], [3, 7, 8, 6], [9, 10, 5, 8], [9, 11, 2, 7], [1, 11, 10, 4]]
    [0, 1, 2, 3] (by decide) (by decide) (by decide) (by decide)

theorem canon_swap (e : Nat × Nat) : canon e.swap = canon e := by
  obtain ⟨x, y⟩ := e
  simp only [canon, Prod.swap]
  split_ifs with h1 h2 h2 <;> simp_all <;> omega

theorem canon_eq_iff (a b : Nat × Nat) :
    canon a = canon b ↔ a = b ∨ a = b.swap := by
  obtain ⟨x, y⟩ := a
  obtain ⟨u, v⟩ := b
  simp only [canon, Prod.swap, Prod.mk.injEq, Prod.ext_iff]
  split_ifs with h1 h2 h2 <;> omega

theorem idxOf_of_mem {β : Type} [DecidableEq β] {x : β} {l : List β}
    (h : x ∈ l) : ∃ i, idxOf x l = some i ∧ i < l.length := by
  induction l with
  | nil => cases h
  | cons y ys ih =>
    by_cases hy : y = x
    · exact ⟨0, by simp [idxOf, hy], by simp⟩
    · have hx : x ∈ ys := by
        cases h with
        | head => exact absurd rfl hy
        | tail _ h => exact h
      obtain ⟨i, hi, hlt⟩ := ih hx
      exact ⟨i + 1, by simp [idxOf, hy, hi], by simp; omega⟩

theorem lookupEdge_none {es : List (Nat × Nat)} {e : Nat × Nat}
    (h : lookupEdge es e = none) : e ∉ es ∧ e.swap ∉ es := by
  unfold lookupEdge at h
  constructor
  · intro hm
    obtain ⟨i, hi, _⟩ := idxOf_of_mem hm
    rw [if_pos hm, hi] at h
    cases h
  · intro hm
    by_cases h1 : e ∈ es
    · obtain ⟨i, hi, _⟩ := idxOf_of_mem h1
      rw [if_pos h1, hi] at h
      cases h
    · obtain ⟨i, hi, _⟩ := idxOf_of_mem hm
      rw [if_neg h1, if_pos hm, hi] at h
      cases h

theorem pairwiseNe_symm :
    Symmetric (fun a b : Nat × Nat => canon a ≠ canon b) := by
  intro a b h hc
  exact h hc.symm

theorem UNodup_addEdge {es : List (Nat × Nat)} (e : Nat × Nat)
    (h : UNodup es) : UNodup (addEdge es e).1 := by
  unfold addEdge
  cases hl : lookupEdge es e with
  | some i => exact h
  | none =>
    obtain ⟨hm1, hm2⟩ := lookupEdge_none hl
    rw [UNodup, List.pairwise_append]
    refine ⟨h, by simp, ?_⟩
    intro a ha b hb
    simp at hb
    rw [hb]
    intro hc
    rcases (canon_eq_iff a e).mp hc with h1 | h1
    · exact hm1 (h1 ▸ ha)
    · exact hm2 (h1 ▸ ha)

theorem UNodup_inner (ps : List (Nat × Nat)) :
    ∀ (es : List (Nat × Nat)) (nf : List Nat), UNodup es →
    UNodup (ps.foldl (fun st2 e =>
      let r := addEdge st2.1 e
      (r.1, st2.2 ++ [r.2])) (es, nf)).1 := by
  induction ps with
  | nil => intro es nf h; exact h
  | cons p ps ih =>
    intro es nf h
    simp only [List.foldl_cons]
    exact ih _ _ (UNodup_addEdge p h)

theorem UNodup_outer (fs : List (List Nat)) :
    ∀ (es : List (Nat × Nat)) (nfs : List (List Nat)), UNodup es →
    UNodup (fs.foldl (fun st face =>
      let inner := (face.zip (face.rotate 1)).foldl
        (fun st2 e =>
          let r := addEdge st2.1 e
          (r.1, st2.2 ++ [r.2]))
        (st.1, ([] : List Nat))
      (inner.1, st.2 ++ [inner.2])) (es, nfs)).1 := by
  induction fs with
  | nil => intro es nfs h; exact h
  | cons f fs ih =>
    intro es nfs h
    simp only [List.foldl_cons]
    exact ih _ _ (UNodup_inner _ _ _ h)

theorem create_with_edges_UNodup (fs : List (List Nat)) :
    UNodup (create_with_edges fs).1 :=
  UNodup_outer fs [] [] (by simp [UNodup])

theorem lookupEdge_swap {es : List (Nat × Nat)} (h : UNodup es)
    (e : Nat × Nat) : lookupEdge es e = lookupEdge es e.swap := by
  by_cases h1 : e ∈ es
  · by_cases h2 : e.swap ∈ es
    · by_cases hee : e.swap = e
      · rw [lookupEdge, lookupEdge, if_pos h1, if_pos h2, hee]
      · exfalso
        exact (List.Pairwise.forall pairwiseNe_symm h) h1 h2
          (fun hc => hee hc.symm) (canon_swap e).symm
    · rw [lookupEdge, lookupEdge, if_pos h1, if_neg h2,
        Prod.swap_swap, if_pos h1]
  · by_cases h2 : e.swap ∈ es
    · rw [lookupEdge, lookupEdge, if_neg h1, if_pos h2, if_pos h2]
    · rw [lookupEdge, lookupEdge, if_neg h1, if_neg h2, if_neg h2,
        Prod.swap_swap, if_neg h1]

theorem C5_undirected_dedup :
    (∀ fs : List (List Nat), UNodup (create_with_edges fs).1) ∧
    (∀ (fs : List (List Nat)) (e : Nat × Nat),
      lookupEdge (create_with_edges fs).1 e =
        lookupEdge (create_with_edges fs).1 e.swap) ∧
    cube.verts.length = 8 ∧ numVerts cube = 8 ∧ numEdges cube = 12 ∧
    numFaces cube = 6 :=
  ⟨create_with_edges_UNodup,
   fun fs e => lookupEdge_swap (create_with_edges_UNodup fs) e,
   by decide, by decide, by decide, by decide⟩

theorem modifyAt_length {β : Type} (l : List β) (n : Nat) (f : β → β) :
    (modifyAt l n f).length = l.length := by
  induction l generalizing n with
  | nil => rfl
  | cons x xs ih =>
    cases n with
    | zero => rfl
    | succ m => simp [modifyAt, ih]

theorem modifyAt_get? {β : Type} (l : List β) (n : Nat) (f : β → β) (i : Nat) :
    (modifyAt l n f)[i]? = if i = n then (l[i]?).map f else l[i]? := by
  induction l generalizing n i with
  | nil => simp [modifyAt]
  | cons x xs ih =>
    cases n with
    | zero =>
      cases i with
      | zero => simp [modifyAt]
      | succ k => simp [modifyAt]
    | succ m =>
      cases i with
      | zero => simp [modifyAt]
      | succ k => simp [modifyAt, ih, Nat.succ_eq_add_one]

theorem pushSup_length (g : List Node) (s k : Nat) :
    (pushSup g s k).length = g.length := by
  unfold pushSup; exact modifyAt_length g s _

theorem nodeAt_pushSup (g : List Node) (s k i : Nat) (hi : i < g.length) :
    nodeAt (pushSup g s k) i =
      if i = s then
        ⟨(nodeAt g i).subs, (nodeAt g i).sups ++ [k]⟩
      else nodeAt g i := by
  unfold pushSup nodeAt
  rw [modifyAt_get?]
  cases hg : g[i]? with
  | none => exact absurd hg (by simp [List.getElem?_eq_none_iff]; omega)
  | some nd =>
    by_cases h : i = s <;> simp [h, hg]

theorem supfold_length (sl : List Nat) (g : List Node) (k : Nat) :
    (sl.foldl (fun acc s => pushSup acc s k) g).length = g.length := by
  induction sl generalizing g with
  | nil => rfl
  | cons s sl ih => simp only [List.foldl_cons]; rw [ih, pushSup_length]

theorem nodeAt_supfold (sl : List Nat) (g : List Node) (k i : Nat)
    (hi : i < g.length) :
    (nodeAt (sl.foldl (fun acc s => pushSup acc s k) g) i).subs =
      (nodeAt g i).subs ∧
    (nodeAt (sl.foldl (fun acc s => pushSup acc s k) g) i).sups =
      (nodeAt g i).sups ++ List.replicate (sl.count i) k := by
  induction sl generalizing g with
  | nil => simp
  | cons s sl ih =>
    simp only [List.foldl_cons]
    have hlen : i < (pushSup g s k).length := by rw [pushSup_length]; exact hi
    obtain ⟨h1, h2⟩ := ih (pushSup g s k) hlen
    rw [h1, h2, nodeAt_pushSup g s k i hi]
    by_cases h : i = s
    · subst h
      simp [List.count_cons, List.replicate_succ]
    · have : s ≠ i := fun hc => h hc.symm
      simp [h, List.count_cons, this]

theorem addElem_length (g : List Node) (subs : List Nat) :
    (addElem g subs).length = g.length + 1 := by
  unfold addElem
  rw [supfold_length]
  simp

theorem nodeAt_append_lt (g l : List Node) (i : Nat) (hi : i < g.length) :
    nodeAt (g ++ l) i = nodeAt g i := by
  unfold nodeAt
  rw [List.getElem?_append, if_pos hi]

theorem nodeAt_addElem_lt (g : List Node) (subs : List Nat) (i : Nat)
    (hi : i < g.length) :
    (nodeAt (addElem g subs) i).subs = (nodeAt g i).subs ∧
    (nodeAt (addElem g subs) i).sups =
      (nodeAt g i).sups ++ List.replicate (subs.count i) g.length := by
  unfold addElem
  have hlen : i < (g ++ [(⟨subs, []⟩ : Node)]).length := by simp; omega
  obtain ⟨h1, h2⟩ := nodeAt_supfold subs (g ++ [⟨subs, []⟩]) g.length i hlen
  rw [h1, h2, nodeAt_append_lt g _ i hi]
  exact ⟨rfl, rfl⟩

theorem nodeAt_append_self (g : List Node) (x : Node) :
    nodeAt (g ++ [x]) g.length = x := by
  unfold nodeAt
  simp

theorem nodeAt_addElem_self (g : List Node) (subs : List Nat) :
    (nodeAt (addElem g subs) g.length).subs = subs ∧
    (nodeAt (addElem g subs) g.length).sups =
      List.replicate (subs.count g.length) g.length := by
  unfold addElem
  have hlen : g.length < (g ++ [(⟨subs, []⟩ : Node)]).length := by simp
  obtain ⟨h1, h2⟩ := nodeAt_supfold subs (g ++ [⟨subs, []⟩]) g.length g.length hlen
  rw [h1, h2, nodeAt_append_self]
  exact ⟨rfl, by simp⟩

theorem count_eq_zero_of_lt {l : List Nat} {k : Nat}
    (h : ∀ s ∈ l, s < k) : List.count k l = 0 := by
  rw [List.count_eq_zero]
  intro hk
  exact absurd (h k hk) (by omega)

theorem addElem_inv {g : List Node} {subs : List Nat}
    (hB : Bounded g) (hT : TwoWay g) (hs : ∀ s ∈ subs, s < g.length) :
    Bounded (addElem g subs) ∧ TwoWay (addElem g subs) := by
  have hlen := addElem_length g subs
  constructor
  · intro i hi
    rw [hlen] at hi
    by_cases hig : i < g.length
    · obtain ⟨h1, h2⟩ := nodeAt_addElem_lt g subs i hig
      rw [h1, h2]
      obtain ⟨b1, b2⟩ := hB i hig
      refine ⟨fun s hsm => by have := b1 s hsm; omega, ?_⟩
      intro s hsm
      rcases List.mem_append.mp hsm with hold | hnew
      · have := b2 s hold; omega
      · have := List.eq_of_mem_replicate hnew; omega
    · have hig2 : i = g.length := by omega
      subst hig2
      obtain ⟨h1, h2⟩ := nodeAt_addElem_self g subs
      rw [h1, h2]
      refine ⟨fun s hsm => by have := hs s hsm; omega, ?_⟩
      intro s hsm
      have := List.eq_of_mem_replicate hsm; omega
  · intro i hi j hj
    rw [hlen] at hi hj
    by_cases hig : i < g.length <;> by_cases hjg : j < g.length
    · obtain ⟨hi1, _⟩ := nodeAt_addElem_lt g subs i hig
      obtain ⟨_, hj2⟩ := nodeAt_addElem_lt g subs j hjg
      rw [hi1, hj2, List.count_append, hT i hig j hjg]
      have : List.count i (List.replicate (subs.count j) g.length) = 0 := by
        rw [List.count_replicate]
        simp only [beq_iff_eq]
        rw [if_neg (by omega)]
      omega
    · have hj2 : j = g.length := by omega
      subst hj2
      obtain ⟨hi1, _⟩ := nodeAt_addElem_lt g subs i hig
      obtain ⟨_, hj2⟩ := nodeAt_addElem_self g subs
      rw [hi1, hj2]
      have hz1 : List.count g.length (nodeAt g i).subs = 0 :=
        count_eq_zero_of_lt (hB i hig).1
      have hz2 : List.count g.length subs = 0 := count_eq_zero_of_lt hs
      rw [hz1, hz2]
      simp
    · have hi2 : i = g.length := by omega
      subst hi2
      obtain ⟨hi1, _⟩ := nodeAt_addElem_self g subs
      obtain ⟨_, hj2⟩ := nodeAt_addElem_lt g subs j hjg
      rw [hi1, hj2, List.count_append]
      have hz : List.count g.length (nodeAt g j).sups = 0 :=
        count_eq_zero_of_lt (hB j hjg).2
      rw [hz, List.count_replicate]
      simp
    · have hi2 : i = g.length := by omega
      have hj2 : j = g.length := by omega
      subst hi2; subst hj2
      obtain ⟨h1, h2⟩ := nodeAt_addElem_self g subs
      rw [h1, h2]
      have hz : List.count g.length subs = 0 := count_eq_zero_of_lt hs
      rw [hz, List.count_replicate]
      simp

theorem addRank_length (elems : List (List Nat)) :
    ∀ g : List Node, (addRank g elems).length = g.length + elems.length := by
  induction elems with
  | nil => intro g; simp [addRank]
  | cons el els ih =>
    intro g
    show (addRank (addElem g el) els).length = _
    rw [ih, addElem_length]
    simp; omega

theorem addRank_inv (elems : List (List Nat)) :
    ∀ g : List Node, Bounded g → TwoWay g →
    (∀ el ∈ elems, ∀ s ∈ el, s < g.length) →
    Bounded (addRank g elems) ∧ TwoWay (addRank g elems) := by
  induction elems with
  | nil => intro g hB hT _; exact ⟨hB, hT⟩
  | cons el els ih =>
    intro g hB hT hbound
    obtain ⟨hB2, hT2⟩ := addElem_inv hB hT (hbound el (by simp))
    have hlen := addElem_length g el
    refine ih (addElem g el) hB2 hT2 ?_
    intro e he s hs
    have := hbound e (by simp [he]) s hs
    omega

theorem idxOf_some_lt {β : Type} [DecidableEq β] {x : β} {l : List β} {i : Nat}
    (h : idxOf x l = some i) : i < l.length := by
  induction l generalizing i with
  | nil => cases h
  | cons y ys ih =>
    by_cases hy : y = x
    · simp [idxOf, hy] at h
      simp [List.length_cons]
      omega
    · simp only [idxOf, if_neg hy] at h
      cases hr : idxOf x ys with
      | none => rw [hr] at h; cases h
      | some m =>
        rw [hr] at h
        simp at h
        have := ih hr
        simp
        omega

theorem addEdge_le (es : List (Nat × Nat)) (e : Nat × Nat) :
    es.length ≤ (addEdge es e).1.length := by
  unfold addEdge
  cases lookupEdge es e with
  | some i => exact Nat.le_refl _
  | none => simp

theorem addEdge_idx_lt (es : List (Nat × Nat)) (e : Nat × Nat) :
    (addEdge es e).2 < (addEdge es e).1.length := by
  unfold addEdge
  cases h : lookupEdge es e with
  | some i =>
    unfold lookupEdge at h
    by_cases h1 : e ∈ es
    · rw [if_pos h1] at h
      exact idxOf_some_lt h
    · rw [if_neg h1] at h
      by_cases h2 : e.swap ∈ es
      · rw [if_pos h2] at h
        exact idxOf_some_lt h
      · rw [if_neg h2] at h; cases h
  | none => simp

theorem cwe_inner_bound (ps : List (Nat × Nat)) :
    ∀ (es : List (Nat × Nat)) (nf : List Nat),
    (∀ j ∈ nf, j < es.length) →
    (∀ j ∈ (ps.foldl (fun st2 e =>
        let r := addEdge st2.1 e
        (r.1, st2.2 ++ [r.2])) (es, nf)).2,
      j < (ps.foldl (fun st2 e =>
        let r := addEdge st2.1 e
        (r.1, st2.2 ++ [r.2])) (es, nf)).1.length) ∧
    es.length ≤ (ps.foldl (fun st2 e =>
        let r := addEdge st2.1 e
        (r.1, st2.2 ++ [r.2])) (es, nf)).1.length := by
  induction ps with
  | nil => intro es nf h; exact ⟨h, Nat.le_refl _⟩
  | cons p ps ih =>
    intro es nf h
    simp only [List.foldl_cons]
    have hbound : ∀ j ∈ (nf ++ [(addEdge es p).2]), j < (addEdge es p).1.length := by
      intro j hj
      rcases List.mem_append.mp hj with hold | hnew
      · exact Nat.lt_of_lt_of_le (h j hold) (addEdge_le es p)
      · simp at hnew
        rw [hnew]
        exact addEdge_idx_lt es p
    obtain ⟨h1, h2⟩ := ih (addEdge es p).1 (nf ++ [(addEdge es p).2]) hbound
    exact ⟨h1, Nat.le_trans (addEdge_le es p) h2⟩

theorem cwe_outer_bound (fs : List (List Nat)) :
    ∀ (es : List (Nat × Nat)) (nfs : List (List Nat)),
    (∀ f ∈ nfs, ∀ j ∈ f, j < es.length) →
    ∀ f ∈ (fs.foldl (fun st face =>
        let inner := (face.zip (face.rotate 1)).foldl
          (fun st2 e =>
            let r := addEdge st2.1 e
            (r.1, st2.2 ++ [r.2]))
          (st.1, ([] : List Nat))
        (inner.1, st.2 ++ [inner.2])) (es, nfs)).2,
      ∀ j ∈ f, j < (fs.foldl (fun st face =>
        let inner := (face.zip (face.rotate 1)).foldl
          (fun st2 e =>
            let r := addEdge st2.1 e
            (r.1, st2.2 ++ [r.2]))
          (st.1, ([] : List Nat))
        (inner.1, st.2 ++ [inner.2])) (es, nfs)).1.length := by
  induction fs with
  | nil => intro es nfs h; exact h
  | cons f fs ih =>
    intro es nfs h
    simp only [List.foldl_cons]
    obtain ⟨hin, hle⟩ := cwe_inner_bound (f.zip (f.rotate 1)) es [] (by simp)
    refine ih _ _ ?_
    intro f2 hf2 j hj
    rcases List.mem_append.mp hf2 with hold | hnew
    · exact Nat.lt_of_lt_of_le (h f2 hold j hj) hle
    · simp at hnew
      rw [hnew] at hj
      exact hin j hj

theorem create_with_edges_bound (fs : List (List Nat)) :
    ∀ f ∈ (create_with_edges fs).2, ∀ j ∈ f,
      j < (create_with_edges fs).1.length :=
  cwe_outer_bound fs [] [] (by simp)

theorem C3_amended {α : Type} [DecidableEq α] (vs : List (Pt α))
    (fs : List (List Nat)) (b : Built α)
    (h : create_polytope vs fs = .ok b) : TwoWay (wireAll b) := by
  unfold create_polytope at h
  by_cases hall : (create_with_edges fs).1.all
      (fun e => decide (e.1 < vs.length) && decide (e.2 < vs.length))
  · rw [if_pos hall] at h
    cases h
    simp only [wireAll]
    have hedge : ∀ e ∈ (create_with_edges fs).1,
        e.1 < vs.length ∧ e.2 < vs.length := by
      intro e he
      have := List.all_eq_true.mp hall e he
      simp at this
      exact this
    have base : Bounded ([] : List Node) ∧ TwoWay [] := by
      constructor <;> intro i hi <;> simp at hi
    have hc0 : ∀ el ∈ (vs.map fun _ => ([] : List Nat)), ∀ s ∈ el,
        s < ([] : List Node).length := by
      intro el hel s hs
      obtain ⟨a, _, heq⟩ := List.mem_map.mp hel
      subst heq
      cases hs
    obtain ⟨hB0, hT0⟩ := addRank_inv (vs.map fun _ => []) [] base.1 base.2 hc0
    have l0 : (addRank [] (vs.map fun _ => [])).length = vs.length := by
      rw [addRank_length]; simp
    have hc1 : ∀ el ∈ ((create_with_edges fs).1.map fun e => [e.1, e.2]),
        ∀ s ∈ el, s < (addRank [] (vs.map fun _ => [])).length := by
      intro el hel s hs
      rw [l0]
      obtain ⟨e, he, heq⟩ := List.mem_map.mp hel
      subst heq
      simp at hs
      rcases hs with h1 | h1 <;> rw [h1]
      · exact (hedge e he).1
      · exact (hedge e he).2
    obtain ⟨hB1, hT1⟩ := addRank_inv
      ((create_with_edges fs).1.map fun e => [e.1, e.2]) _ hB0 hT0 hc1
    have l1 : (addRank (addRank [] (vs.map fun _ => []))
        ((create_with_edges fs).1.map fun e => [e.1, e.2])).length =
        vs.length + (create_with_edges fs).1.length := by
      rw [addRank_length, l0]; simp
    have hc2 : ∀ el ∈ ((create_with_edges fs).2.map
          fun f => f.map fun j => j + vs.length),
        ∀ s ∈ el, s < (addRank (addRank [] (vs.map fun _ => []))
          ((create_with_edges fs).1.map fun e => [e.1, e.2])).length := by
      intro el hel s hs
      rw [l1]
      obtain ⟨f, hf, heq⟩ := List.mem_map.mp hel
      subst heq
      obtain ⟨j, hj, heq⟩ := List.mem_map.mp hs
      subst heq
      have := create_with_edges_bound fs f hf j hj
      omega
    obtain ⟨hB2, hT2⟩ := addRank_inv
      ((create_with_edges fs).2.map fun f => f.map fun j => j + vs.length) _
      hB1 hT1 hc2
    have l2 : (addRank (addRank (addRank [] (vs.map fun _ => []))
        ((create_with_edges fs).1.map fun e => [e.1, e.2]))
        ((create_with_edges fs).2.map fun f => f.map fun j => j + vs.length)).length =
        vs.length + (create_with_edges fs).1.length +
          (create_with_edges fs).2.length := by
      rw [addRank_length, l1]
      simp
      try omega
    refine (addElem_inv hB2 hT2 ?_).2
    intro s hs
    rw [l2]
    obtain ⟨i, hi, heq⟩ := List.mem_map.mp hs
    subst heq
    simp at hi
    omega
  · rw [if_neg hall] at h
    cases h

theorem C3_witness : TwoWay (wireAll cube) :=
  C3_amended cubeVerts cubeFacesIn cube (by decide)

theorem zip_drop {γ δ : Type} : ∀ (k : Nat) (a : List γ) (b : List δ),
    (a.zip b).drop k = (a.drop k).zip (b.drop k) := by
  intro k
  induction k with
  | zero => simp
  | succ m ih =>
    intro a b
    cases a with
    | nil => simp
    | cons x xs =>
      cases b with
      | nil => simp
      | cons y ys => simp [ih]

theorem zip_take {γ δ : Type} : ∀ (k : Nat) (a : List γ) (b : List δ),
    (a.zip b).take k = (a.take k).zip (b.take k) := by
  intro k
  induction k with
  | zero => simp
  | succ m ih =>
    intro a b
    cases a with
    | nil => simp
    | cons x xs =>
      cases b with
      | nil => simp
      | cons y ys => simp [ih]

theorem zip_append_eq {γ δ : Type} : ∀ (a : List γ) (b : List δ)
    (c : List γ) (d : List δ), a.length = b.length →
    (a ++ c).zip (b ++ d) = a.zip b ++ c.zip d := by
  intro a
  induction a with
  | nil =>
    intro b c d hb
    cases b with
    | nil => simp
    | cons y ys => simp at hb
  | cons x xs ih =>
    intro b c d hb
    cases b with
    | nil => simp at hb
    | cons y ys =>
      simp at hb
      simp [ih ys c d hb]

theorem zip_rotate {γ δ : Type} (a : List γ) (b : List δ) (k : Nat)
    (h : a.length = b.length) :
    (a.rotate k).zip (b.rotate k) = (a.zip b).rotate k := by
  by_cases h0 : a.length = 0
  · have ha : a = [] := List.length_eq_zero.mp h0
    have hb : b = [] := List.length_eq_zero.mp (by omega)
    subst ha; subst hb; simp
  · have hpos : 0 < a.length := Nat.pos_of_ne_zero h0
    have hz : (a.zip b).length = a.length := by simp [List.length_zip, h]
    rw [← List.rotate_mod a k, ← List.rotate_mod b k,
      ← List.rotate_mod (a.zip b) k, hz, ← h]
    have hk : k % a.length ≤ a.length := Nat.le_of_lt (Nat.mod_lt _ hpos)
    rw [List.rotate_eq_drop_append_take hk,
      List.rotate_eq_drop_append_take (by omega),
      List.rotate_eq_drop_append_take (by rw [hz]; exact hk),
      zip_append_eq _ _ _ _ (by simp; omega), zip_drop, zip_take]

theorem cycPairs_length (l : List Nat) : (cycPairs l).length = l.length := by
  simp [cycPairs, List.length_zip]

theorem cycPairs_rotate (l : List Nat) (k : Nat) :
    cycPairs (l.rotate k) = (cycPairs l).rotate k := by
  unfold cycPairs
  rw [List.rotate_rotate]
  have h1 : l.rotate (k + 1) = (l.rotate 1).rotate k := by
    rw [List.rotate_rotate, Nat.add_comm]
  rw [h1, zip_rotate _ _ _ (by simp)]

theorem zip_reverse {γ δ : Type} : ∀ (a : List γ) (b : List δ),
    a.length = b.length → (a.reverse).zip (b.reverse) = (a.zip b).reverse := by
  intro a
  induction a with
  | nil => intro b h; simp
  | cons x xs ih =>
    intro b h
    cases b with
    | nil => simp at h
    | cons y ys =>
      simp at h
      simp only [List.reverse_cons, List.zip_cons_cons]
      rw [zip_append_eq _ _ _ _ (by simp [h]), ih ys h]
      simp

theorem cycPairs_reverse_perm (l : List Nat) :
    ((cycPairs l.reverse).map canon).Perm ((cycPairs l).map canon) := by
  by_cases h1 : l.length ≤ 1
  · cases l with
    | nil => simp
    | cons x xs =>
      cases xs with
      | nil => simp
      | cons y ys => simp at h1
  · have hn : 2 ≤ l.length := by omega
    have hrr : l.reverse.rotate 1 = (l.rotate (l.length - 1)).reverse := by
      rw [List.rotate_reverse]
      congr 1
      rw [Nat.mod_eq_of_lt (by omega)]
    have step1 : cycPairs l.reverse = (l.zip (l.rotate (l.length - 1))).reverse := by
      unfold cycPairs
      rw [hrr, zip_reverse _ _ (by simp)]
    have step2 : l.zip (l.rotate (l.length - 1)) =
        ((l.rotate (l.length - 1)).zip l).map Prod.swap := by
      rw [List.zip_swap]
    have step3 : (l.rotate (l.length - 1)).zip l =
        cycPairs (l.rotate (l.length - 1)) := by
      unfold cycPairs
      rw [List.rotate_rotate]
      have : l.length - 1 + 1 = l.length := by omega
      rw [this, List.rotate_length]
    rw [step1, step2, step3, cycPairs_rotate]
    rw [List.map_reverse, List.map_map]
    have hcs : canon ∘ Prod.swap = canon := by
      funext e
      exact canon_swap e
    rw [hcs]
    exact (List.reverse_perm _).trans ((List.rotate_perm _ _).map canon)

theorem wrapPairs_eq_zip (w : Nat) : ∀ (t : List Nat) (x : Nat),
    wrapPairs w (x :: t) = (x :: t).zip (t ++ [w]) := by
  intro t
  induction t with
  | nil => intro x; rfl
  | cons y t ih =>
    intro x
    show (x, y) :: wrapPairs w (y :: t) = _
    rw [ih y]
    simp

theorem cycPairs_cons_cons (x y : Nat) (t : List Nat) :
    cycPairs (x :: y :: t) = (x, y) :: wrapPairs x (y :: t) := by
  unfold cycPairs
  rw [List.rotate_cons_succ, List.rotate_zero, wrapPairs_eq_zip]
  simp

theorem wrapPairs_length (w : Nat) (x : Nat) (t : List Nat) :
    (wrapPairs w (x :: t)).length = t.length + 1 := by
  rw [wrapPairs_eq_zip]
  simp [List.length_zip]

theorem wrapPairs_mem (w : Nat) : ∀ (L : List Nat) (p q : Nat),
    (p, q) ∈ wrapPairs w L → p ∈ L ∧ (q ∈ L ∨ q = w) := by
  intro L
  induction L with
  | nil => intro p q h; cases h
  | cons x t ih =>
    intro p q h
    cases t with
    | nil =>
      simp [wrapPairs] at h
      obtain ⟨h1, h2⟩ := h
      exact ⟨by simp [h1], Or.inr h2⟩
    | cons y t2 =>
      rcases List.mem_cons.mp h with h | h
      · simp at h
        exact ⟨by simp [h.1], Or.inl (by simp [h.2])⟩
      · obtain ⟨hp, hq⟩ := ih p q h
        refine ⟨by simp [hp], ?_⟩
        rcases hq with h2 | h2
        · exact Or.inl (by simp [h2])
        · exact Or.inr h2

theorem getLastD_concat_eq (x : Nat) : ∀ (l : List Nat) (d : Nat),
    (l ++ [x]).getLastD d = x := by
  intro l
  induction l with
  | nil => intro d; rfl
  | cons y ys ih =>
    intro d
    rw [List.cons_append, List.getLastD_cons]
    exact ih y

theorem eraseFirst_length {β : Type} [DecidableEq β] {e : β} :
    ∀ {l : List β}, e ∈ l → (eraseFirst l e).length + 1 = l.length := by
  intro l
  induction l with
  | nil => intro h; cases h
  | cons x xs ih =>
    intro h
    by_cases hx : x = e
    · simp [eraseFirst, hx]
    · have het : e ∈ xs := by
        rcases List.mem_cons.mp h with h1 | h1
        · exact absurd h1.symm hx
        · exact h1
      rw [show eraseFirst (x :: xs) e = x :: eraseFirst xs e from by
        simp [eraseFirst, hx]]
      simp only [List.length_cons]
      rw [← ih het]

theorem map_eraseFirst_cons_perm : ∀ (l : List (Nat × Nat)) (e : Nat × Nat),
    e ∈ l → (l.map canon).Perm (canon e :: (eraseFirst l e).map canon) := by
  intro l
  induction l with
  | nil => intro e h; cases h
  | cons a t ih =>
    intro e h
    by_cases hae : a = e
    · subst hae
      rw [show eraseFirst (a :: t) a = t from by simp [eraseFirst]]
      exact List.Perm.refl _
    · have het : e ∈ t := by
        rcases List.mem_cons.mp h with h1 | h1
        · exact absurd h1.symm hae
        · exact h1
      rw [show eraseFirst (a :: t) e = a :: eraseFirst t e from by
        simp [eraseFirst, hae]]
      have h1 : ((a :: t).map canon).Perm
          (canon a :: canon e :: (eraseFirst t e).map canon) :=
        (ih e het).cons (canon a)
      have h2 : (canon a :: canon e :: (eraseFirst t e).map canon).Perm
          (canon e :: canon a :: (eraseFirst t e).map canon) :=
        List.Perm.swap (canon e) (canon a) _
      exact h1.trans h2

theorem walkLoop_cycle (v0 : Nat) :
    ∀ (rest mid : List Nat) (last : Nat) (rem : List (Nat × Nat)) (fuel : Nat),
    ((v0 :: (mid ++ [last])) ++ rest).Nodup →
    rem.length ≤ fuel →
    (rem.map canon).Perm ((wrapPairs v0 (last :: rest)).map canon) →
    walkLoop fuel (v0 :: (mid ++ [last])) rem =
      .ok ((v0 :: (mid ++ [last])) ++ rest) := by
  intro rest
  induction rest with
  | nil =>
    intro mid last rem fuel hnd hfuel hperm
    have hlen1 : rem.length = 1 := by
      have := hperm.length_eq
      simpa [wrapPairs] using this
    cases fuel <;> simp [walkLoop, hlen1]
  | cons r rest' ih =>
    intro mid last rem fuel hnd hfuel hperm
    have hwl : wrapPairs v0 (last :: r :: rest') =
        (last, r) :: wrapPairs v0 (r :: rest') := rfl
    have hremlen : rem.length = rest'.length + 2 := by
      have := hperm.length_eq
      rw [hwl] at this
      simp [wrapPairs_length] at this
      omega
    have hv0 : v0 ∉ (mid ++ [last]) ++ (r :: rest') :=
      (List.nodup_cons.mp (by simpa using hnd)).1
    have hnd2 : ((mid ++ [last]) ++ (r :: rest')).Nodup :=
      (List.nodup_cons.mp (by simpa using hnd)).2
    have hdisj := (List.nodup_append.mp hnd2).2.2
    have hrestnd : (r :: rest').Nodup := (List.nodup_append.mp hnd2).2.1
    have hlast_notin : last ∉ r :: rest' := by
      intro hc
      exact hdisj (by simp) hc
    have hv0_ne_last : v0 ≠ last := by
      intro hc
      exact hv0 (by simp [hc])
    have hv0_notin : v0 ∉ r :: rest' := by
      intro hc
      exact hv0 (by simp [hc])
    have hlast_ne_r : last ≠ r := by
      intro hc
      exact hlast_notin (by simp [hc])
    obtain ⟨f, rfl⟩ : ∃ f, fuel = f + 1 := by
      cases fuel with
      | zero => omega
      | succ f => exact ⟨f, rfl⟩
    have hlastD : (v0 :: (mid ++ [last])).getLastD 0 = last := by
      rw [List.getLastD_cons, getLastD_concat_eq]
    simp only [walkLoop]
    rw [if_pos (by omega)]
    rw [hlastD]
    have hctarget : canon (last, r) ∈ rem.map canon := by
      rw [hperm.mem_iff, hwl]
      simp
    cases hfind : rem.find?
        (fun e => decide (e.1 = last) || decide (e.2 = last)) with
    | none =>
      exfalso
      obtain ⟨e, hmem, hc⟩ := List.mem_map.mp hctarget
      have hnone := List.find?_eq_none.mp hfind e hmem
      rcases (canon_eq_iff e (last, r)).mp hc with he | he <;>
        · rw [he] at hnone
          simp [Prod.swap] at hnone
    | some e2 =>
      have hmem2 : e2 ∈ rem := List.mem_of_find?_eq_some hfind
      have hp2 : e2.1 = last ∨ e2.2 = last := by
        have := List.find?_some hfind
        simpa using this
      have hc2 : canon e2 = canon (last, r) := by
        have hmw : canon e2 ∈ (wrapPairs v0 (last :: r :: rest')).map canon :=
          hperm.subset (List.mem_map_of_mem canon hmem2)
        rw [hwl, List.map_cons] at hmw
        rcases List.mem_cons.mp hmw with h | h
        · exact h
        · exfalso
          obtain ⟨p, hpw, hpc⟩ := List.mem_map.mp h
          obtain ⟨p1, p2⟩ := p
          obtain ⟨hp1, hpq⟩ := wrapPairs_mem v0 (r :: rest') p1 p2 hpw
          rcases (canon_eq_iff e2 (p1, p2)).mp hpc.symm with he | he
          · rcases hp2 with hl | hl
            · have : p1 = last := by rw [he] at hl; simpa using hl
              exact hlast_notin (this ▸ hp1)
            · have hpl : p2 = last := by rw [he] at hl; simpa using hl
              rcases hpq with hq | hq
              · exact hlast_notin (hpl ▸ hq)
              · exact hv0_ne_last (by rw [← hq, hpl])
          · rcases hp2 with hl | hl
            · have hpl : p2 = last := by rw [he] at hl; simpa [Prod.swap] using hl
              rcases hpq with hq | hq
              · exact hlast_notin (hpl ▸ hq)
              · exact hv0_ne_last (by rw [← hq, hpl])
            · have : p1 = last := by rw [he] at hl; simpa [Prod.swap] using hl
              exact hlast_notin (this ▸ hp1)
      have hother : edgeOther e2 last = r := by
        rcases (canon_eq_iff e2 (last, r)).mp hc2 with he | he
        · rw [he]
          simp [edgeOther]
        · rw [he]
          simp [edgeOther, Prod.swap]
          intro hc
          exact absurd hc.symm hlast_ne_r
      show walkLoop f ((v0 :: (mid ++ [last])) ++ [edgeOther e2 last])
        (eraseFirst rem e2) = _
      rw [hother]
      have hperm2 : ((eraseFirst rem e2).map canon).Perm
          ((wrapPairs v0 (r :: rest')).map canon) := by
        have h1 := map_eraseFirst_cons_perm rem e2 hmem2
        rw [hc2] at h1
        have h3 : (rem.map canon).Perm
            (canon (last, r) :: (wrapPairs v0 (r :: rest')).map canon) := by
          rw [hwl, List.map_cons] at hperm
          exact hperm
        exact (h1.symm.trans h3).cons_inv
      have hfuel2 : (eraseFirst rem e2).length ≤ f := by
        have := eraseFirst_length hmem2
        omega
      have hnd3 : ((v0 :: ((mid ++ [last]) ++ [r])) ++ rest').Nodup := by
        have heq : (v0 :: ((mid ++ [last]) ++ [r])) ++ rest' =
            (v0 :: (mid ++ [last])) ++ (r :: rest') := by
          simp
        rw [heq]
        exact hnd
      have hrec := ih (mid ++ [last]) r (eraseFirst rem e2) f hnd3 hfuel2 hperm2
      have hacc : (v0 :: (mid ++ [last])) ++ [r] =
          v0 :: ((mid ++ [last]) ++ [r]) := by
        simp
      rw [hacc, hrec]
      congr 1
      simp

theorem perm_toFinset {l l2 : List Nat} (h : l.Perm l2) :
    l.toFinset = l2.toFinset := by
  ext a
  simp [List.mem_toFinset, h.mem_iff]

theorem rotate_append_len {γ : Type} (l m : List γ) :
    (l ++ m).rotate l.length = m ++ l := by
  rw [List.rotate_eq_drop_append_take (by simp)]
  rw [List.drop_left, List.take_left]

theorem simple_cycle_rebase (vs : List Nat) (e0 : Nat × Nat)
    (hn : 3 ≤ vs.length) (hnd : vs.Nodup)
    (hmem : canon e0 ∈ (cycPairs vs).map canon) :
    ∃ t : List Nat,
      (e0.1 :: e0.2 :: t).Nodup ∧
      (e0.1 :: e0.2 :: t).length = vs.length ∧
      (e0.1 :: e0.2 :: t).toFinset = vs.toFinset ∧
      ((cycPairs (e0.1 :: e0.2 :: t)).map canon).Perm ((cycPairs vs).map canon) := by
  obtain ⟨p, hp, hpc⟩ := List.mem_map.mp hmem
  obtain ⟨k, hk⟩ := List.mem_iff_get.mp hp
  have hlr : (vs.rotate k.val).length = vs.length := by simp
  have hvl : 3 ≤ (vs.rotate k.val).length := by omega
  obtain ⟨a, b, t, hvt⟩ : ∃ a b t, vs.rotate k.val = a :: b :: t := by
    cases hv : vs.rotate k.val with
    | nil => rw [hv] at hlr; simp at hlr; omega
    | cons a rest2 =>
      cases hr : rest2 with
      | nil => rw [hv, hr] at hlr; simp at hlr; omega
      | cons b t => exact ⟨a, b, t, rfl⟩
  have hab : (a, b) = p := by
    have hklt : k.val < (cycPairs vs).length := k.isLt
    have h2 : ((cycPairs vs).rotate k.val).head? = (cycPairs vs)[k.val]? :=
      List.head?_rotate hklt
    rw [← cycPairs_rotate, hvt, cycPairs_cons_cons] at h2
    have h4 : (cycPairs vs)[k.val]? = some p := by
      rw [List.getElem?_eq_getElem hklt, ← List.get_eq_getElem]
      exact congrArg some hk
    rw [h4] at h2
    simpa using h2
  have hndr : (a :: b :: t).Nodup := by
    rw [← hvt]
    exact List.nodup_rotate.mpr hnd
  have hpermr : (vs.rotate k.val).Perm vs := List.rotate_perm vs k.val
  have hcycr : ((cycPairs (a :: b :: t)).map canon).Perm
      ((cycPairs vs).map canon) := by
    rw [← hvt, cycPairs_rotate]
    exact (List.rotate_perm _ _).map canon
  rcases (canon_eq_iff p e0).mp hpc with he | he
  · refine ⟨t, ?_, ?_, ?_, ?_⟩
    · rw [← he, ← hab]; exact hndr
    · rw [← he, ← hab]
      have := hpermr.length_eq
      rw [hvt] at this
      simpa using this
    · rw [← he, ← hab]
      rw [← hvt] at hndr ⊢
      exact perm_toFinset hpermr
    · rw [← he, ← hab]
      exact hcycr
  · -- e0 is the reversed orientation: use the reversed rotated cycle
    have he2 : e0 = (b, a) := by
      have hpp : p = (a, b) := hab.symm
      rw [hpp] at he
      have hcomp : e0.2 = a ∧ e0.1 = b := by
        simpa [Prod.swap, Prod.ext_iff] using he.symm
      obtain ⟨h1, h2⟩ := hcomp
      exact Prod.ext h2 h1
    have hrev : (a :: b :: t).reverse = (t.reverse ++ [b]) ++ [a] := by
      simp
    have hrot : ((a :: b :: t).reverse).rotate ((t.reverse ++ [b]).length - 1) =
        b :: a :: t.reverse := by
      rw [hrev]
      have hlen2 : (t.reverse ++ [b]).length - 1 = t.reverse.length := by simp
      rw [hlen2]
      have : t.reverse ++ [b] ++ [a] = t.reverse ++ ([b] ++ [a]) := by simp
      rw [this, rotate_append_len]
      rfl
    refine ⟨t.reverse, ?_, ?_, ?_, ?_⟩
    · rw [he2]
      rw [← hrot]
      simp only [List.nodup_rotate, List.nodup_reverse]
      exact hndr
    · rw [he2]
      have := hpermr.length_eq
      rw [hvt] at this
      simp at this ⊢
      omega
    · rw [he2]
      have hp2 : (b :: a :: t.reverse).Perm vs := by
        rw [← hrot]
        exact ((List.rotate_perm _ _).trans (List.reverse_perm _)).trans
          (by rw [← hvt]; exact hpermr)
      exact perm_toFinset hp2
    · rw [he2]
      show ((cycPairs (b :: a :: t.reverse)).map canon).Perm _
      rw [← hrot, cycPairs_rotate]
      refine ((List.rotate_perm _ _).map canon).trans ?_
      exact (cycPairs_reverse_perm (a :: b :: t)).trans hcycr

/-- C8: for every 2-cell whose unordered edge set is a single simple
cycle, ordered_boundary terminates successfully and returns the bounding
vertices in cyclic traversal order: each face vertex appears exactly once
(the result is duplicate-free and carries exactly the cycle's vertex set),
and the cyclically consecutive pairs of the result are, up to orientation,
exactly the face's edges. -/
theorem C8_ordered_boundary (es : List (Nat × Nat)) (vs : List Nat)
    (h : SimpleCycle es vs) :
    ∃ ws, ordered_boundary es = .ok ws ∧ ws.Nodup ∧
      ws.length = vs.length ∧ ws.toFinset = vs.toFinset ∧
      ((cycPairs ws).map canon).Perm (es.map canon) := by
  obtain ⟨h3, hnd, hperm⟩ := h
  cases hes : es with
  | nil =>
    exfalso
    rw [hes] at hperm
    have := hperm.length_eq
    simp [cycPairs] at this
    omega
  | cons e0 rest =>
    subst hes
    have hmem : canon e0 ∈ (cycPairs vs).map canon := by
      have : canon e0 ∈ (e0 :: rest).map canon := by simp
      exact hperm.mem_iff.mp this
    obtain ⟨t, hndw, hlenw, hfsw, hcycw⟩ := simple_cycle_rebase vs e0 h3 hnd hmem
    have hperm0 : ((e0 :: rest).map canon).Perm
        ((cycPairs (e0.1 :: e0.2 :: t)).map canon) :=
      hperm.trans hcycw.symm
    have hperm1 : ((e0 :: rest).map canon).Perm
        (canon (e0.1, e0.2) :: (wrapPairs e0.1 (e0.2 :: t)).map canon) := by
      rw [← List.map_cons, ← cycPairs_cons_cons]
      exact hperm0
    have hperm2 : (rest.map canon).Perm ((wrapPairs e0.1 (e0.2 :: t)).map canon) := by
      have he : canon e0 = canon (e0.1, e0.2) := rfl
      rw [List.map_cons, he] at hperm1
      exact hperm1.cons_inv
    have hnd2 : ((e0.1 :: ([] ++ [e0.2])) ++ t).Nodup := by
      simpa using hndw
    have hwalk := walkLoop_cycle e0.1 t [] e0.2 rest rest.length hnd2
      (Nat.le_refl _) hperm2
    refine ⟨e0.1 :: e0.2 :: t, ?_, hndw, hlenw, hfsw, hcycw.trans hperm.symm⟩
    show walkLoop rest.length [e0.1, e0.2] rest = _
    have hacc : (e0.1 :: ([] ++ [e0.2])) = [e0.1, e0.2] := by simp
    rw [hacc] at hwalk
    rw [hwalk]
    simp

/-- Witness for C8 at a scrambled square cycle. -/
theorem C8_witness :
    SimpleCycle [(0, 1), (2, 3), (1, 2), (3, 0)] [0, 1, 2, 3] ∧
    ∃ ws, ordered_boundary [(0, 1), (2, 3), (1, 2), (3, 0)] = .ok ws ∧
      ws.Nodup ∧ ws.length = ([0, 1, 2, 3] : List Nat).length ∧
      ws.toFinset = ([0, 1, 2, 3] : List Nat).toFinset ∧
      ((cycPairs ws).map canon).Perm
        (([(0, 1), (2, 3), (1, 2), (3, 0)] : List (Nat × Nat)).map canon) :=
  ⟨by decide, C8_ordered_boundary [(0, 1), (2, 3), (1, 2), (3, 0)] [0, 1, 2, 3]
    (by decide)⟩

end Shapeshift
